import Mathlib

/-!
Shallow embedding of the y86 instruction-cycle engine (`src/lib.rs`).

The machine word is Rust `isize` on a 64-bit target, modelled as `Int`
together with explicit two's-complement wrapping at `2 ^ 64`; addresses are
Rust `usize`, modelled as `Nat` with the `as usize` reinterpretation cast made
explicit.  Memory is the byte vector `mem : Vec<u8>`, modelled as `List Nat`
(a stored byte is always reduced mod 256, as the `u8` type guarantees in the
source).  Every stage of the cycle (`fetch`, `decode`, `execute`, `memory`,
`writeback`, `pc_update`) is translated directly from the corresponding
method of `Machine`; fallible stages return `Except String` carrying the
exact `anyhow::bail!` message of the source.  The interactive stepping
(`do_step`, `wait_until_key`) is pure terminal I/O with no effect on machine
state and is not part of the state model.
-/

namespace Y86

instance {ε α : Type _} [DecidableEq ε] [DecidableEq α] :
    DecidableEq (Except ε α) := fun x y =>
  match x, y with
  | Except.ok a, Except.ok b =>
    if h : a = b then Decidable.isTrue (by rw [h])
    else Decidable.isFalse (by intro hc; injection hc; contradiction)
  | Except.error a, Except.error b =>
    if h : a = b then Decidable.isTrue (by rw [h])
    else Decidable.isFalse (by intro hc; injection hc; contradiction)
  | Except.ok _, Except.error _ =>
    Decidable.isFalse (fun hc => Except.noConfusion hc)
  | Except.error _, Except.ok _ =>
    Decidable.isFalse (fun hc => Except.noConfusion hc)

/-! ## Two's-complement 64-bit arithmetic helpers -/

/-- Reinterpretation of a signed machine word as `usize` (the `as usize`
cast): the unique representative in `[0, 2^64)`. -/
def toU64 (x : Int) : Nat := (x % (2 ^ 64 : Int)).toNat

/-- Reinterpretation of an unsigned 64-bit quantity as `isize` (the
`as isize` cast): two's complement, yielding a value in `[-2^63, 2^63)`. -/
def ofU64 (n : Nat) : Int :=
  if n % 2 ^ 64 < 2 ^ 63 then ((n % 2 ^ 64 : Nat) : Int)
  else ((n % 2 ^ 64 : Nat) : Int) - 2 ^ 64

/-- Wrap an unbounded integer into the signed 64-bit machine-word range,
as Rust's `overflowing_add`/`overflowing_sub` and release-mode `+`/`-` do. -/
def wrap64 (x : Int) : Int := ofU64 (toU64 x)

/-- The two's-complement machine-word range of `isize`. -/
def inRange64 (x : Int) : Prop := -(2 ^ 63) ≤ x ∧ x < 2 ^ 63

instance (x : Int) : Decidable (inRange64 x) := by
  unfold inRange64; infer_instance

/-- Bitwise `&` of two machine words (`isize & isize`). -/
def iand64 (a b : Int) : Int := ofU64 (Nat.land (toU64 a) (toU64 b))

/-- Bitwise `^` of two machine words (`isize ^ isize`). -/
def ixor64 (a b : Int) : Int := ofU64 (Nat.xor (toU64 a) (toU64 b))

/-! ## Data model (`Machine`, `CycleState` and the enums of `lib.rs`) -/

/-- The three condition flags `Flags(bool, bool, bool)`: sign, zero,
overflow. -/
structure Flags where
  sf : Bool
  zf : Bool
  of : Bool
deriving DecidableEq, Repr

/-- `enum Status { Halt, Aok }` of `lib.rs` (this snapshot has no error
variant; fatal errors are reported through the `Result` return of `run`). -/
inductive Status where
  | Halt
  | Aok
deriving DecidableEq, Repr

/-- `enum OpCode` of `lib.rs`. -/
inductive OpCode where
  | Halt
  | Nop
  | Cmov
  | Irmov
  | Rmmov
  | Mrmov
  | Opx
  | Jxx
  | Call
  | Ret
  | Push
  | Pop
deriving DecidableEq, Repr

/-- `enum FunCode` of `lib.rs`. -/
inductive FunCode where
  | Add
  | Sub
  | And
  | Xor
  | Ucnd
  | Lte
  | Lt
  | Eq
  | Neq
  | Gte
  | Gt
  | None
deriving DecidableEq, Repr

/-- `struct Machine` of `lib.rs` (minus the cosmetic `step_mode`, which only
selects interactive pauses and printing). -/
structure Machine where
  mem : List Nat
  regs : List Int
  flags : Flags
  status : Status
  cycle : Nat
  pc : Nat
deriving DecidableEq, Repr

/-- `const RSP: usize = 4`, the stack-pointer register index. -/
def RSP : Nat := 4

/-- `struct CycleState` of `lib.rs`; `fn` is the Rust field `fun`. -/
structure CycleState where
  op : OpCode
  fn : FunCode
  r_a : Nat
  r_b : Nat
  val_c : Int
  val_p : Nat
  val_a : Int
  val_b : Int
  val_e : Int
  val_m : Int
  cnd : Bool
deriving DecidableEq, Repr

/-- The fresh scratch record built by `run` at the top of every cycle. -/
def initState : CycleState :=
  { op := OpCode.Halt, fn := FunCode.None, r_a := 0, r_b := 0, val_c := 0,
    val_p := 0, val_a := 0, val_b := 0, val_e := 0, val_m := 0, cnd := false }

/-- `Machine::new`: zeroed memory of the given size, 15 zero registers,
clear flags, status `Aok`, cycle 0, pc 0. -/
def Machine.new (memSize : Nat) : Machine :=
  { mem := List.replicate memSize 0, regs := List.replicate 15 0,
    flags := { sf := false, zf := false, of := false },
    status := Status.Aok, cycle := 0, pc := 0 }

/-! ## Word-granular memory access -/

/-- Little-endian bytes of an unsigned value, least significant first
(`isize::to_le_bytes`). -/
def leBytesAux : Nat → Nat → List Nat
  | 0, _ => []
  | k + 1, n => n % 256 :: leBytesAux k (n / 256)

/-- The 8 little-endian bytes of a machine word. -/
def leBytes (w : Int) : List Nat := leBytesAux 8 (toU64 w)

/-- Reassemble an unsigned value from little-endian bytes, as the
`word |= (*byte as isize) << (i << 3)` loop of `get_mem_word` does
(each stored byte is a `u8`, hence the reduction mod 256). -/
def le64 (bs : List Nat) : Nat := bs.foldr (fun b acc => b % 256 + 256 * acc) 0

/-- `Machine::get_mem_word`: bounds-checked little-endian word read. -/
def get_mem_word (m : Machine) (addr : Nat) : Except String Int :=
  if addr + 8 ≤ m.mem.length then
    Except.ok (ofU64 (le64 ((m.mem.drop addr).take 8)))
  else Except.error "get word: bad addr"

/-- `Machine::set_mem_word`: bounds-checked little-endian word write,
returning the new memory contents. -/
def set_mem_word (m : Machine) (addr : Nat) (w : Int) : Except String (List Nat) :=
  if addr + 8 ≤ m.mem.length then
    Except.ok (m.mem.take addr ++ leBytes w ++ m.mem.drop (addr + 8))
  else Except.error "set word: bad addr"

/-! ## Condition evaluator -/

/-- Map a function-code nibble of a conditional opcode to its `FunCode`,
shared by the `cmov` and `jxx` arms of `Machine::fetch`. -/
def condFunOfNibble (fn : Nat) : Option FunCode :=
  if fn = 0 then some FunCode.Ucnd
  else if fn = 1 then some FunCode.Lte
  else if fn = 2 then some FunCode.Lt
  else if fn = 3 then some FunCode.Eq
  else if fn = 4 then some FunCode.Neq
  else if fn = 5 then some FunCode.Gte
  else if fn = 6 then some FunCode.Gt
  else none

/-- `Machine::cond`: the condition evaluator over the current flags. -/
def cond (m : Machine) (fn : FunCode) : Bool :=
  let sf := m.flags.sf
  let zf := m.flags.zf
  let o := m.flags.of
  match fn with
  | FunCode.Ucnd => true
  | FunCode.Lte => (Bool.xor sf o) || zf
  | FunCode.Lt => Bool.xor sf o
  | FunCode.Eq => zf
  | FunCode.Neq => !zf
  | FunCode.Gte => !(Bool.xor sf o) && zf
  | FunCode.Gt => !(Bool.xor sf o)
  | _ => false

/-! ## The six cycle stages -/

/-- `Machine::fetch`: decode the instruction at `pc` into the scratch
record. -/
def fetch (m : Machine) (st : CycleState) : Except String CycleState :=
  match m.mem[m.pc]? with
  | none => Except.error "bad addr"
  | some byte =>
    match byte / 16, byte % 16 with
    | 0, _ => Except.ok { st with op := OpCode.Halt, val_p := m.pc + 1 }
    | 1, _ => Except.ok { st with op := OpCode.Nop, val_p := m.pc + 1 }
    | 2, fn =>
      match condFunOfNibble fn with
      | none => Except.error "bad ifun for cmov"
      | some f =>
        match m.mem[m.pc + 1]? with
        | none => Except.error "bad addr"
        | some b2 =>
          Except.ok { st with op := OpCode.Cmov, val_p := m.pc + 2, fn := f,
                              r_a := b2 / 16, r_b := b2 % 16 }
    | 3, _ =>
      match m.mem[m.pc + 1]? with
      | none => Except.error "bad addr"
      | some b2 =>
        match get_mem_word m (m.pc + 2) with
        | Except.error e => Except.error e
        | Except.ok w =>
          Except.ok { st with op := OpCode.Irmov, val_p := m.pc + 10,
                              r_a := b2 / 16, r_b := b2 % 16, val_c := w }
    | 4, _ =>
      match m.mem[m.pc + 1]? with
      | none => Except.error "bad addr"
      | some b2 =>
        match get_mem_word m (m.pc + 2) with
        | Except.error e => Except.error e
        | Except.ok w =>
          Except.ok { st with op := OpCode.Rmmov, val_p := m.pc + 10,
                              r_a := b2 / 16, r_b := b2 % 16, val_c := w }
    | 5, _ =>
      match m.mem[m.pc + 1]? with
      | none => Except.error "bad addr"
      | some b2 =>
        match get_mem_word m (m.pc + 2) with
        | Except.error e => Except.error e
        | Except.ok w =>
          Except.ok { st with op := OpCode.Mrmov, val_p := m.pc + 10,
                              r_a := b2 / 16, r_b := b2 % 16, val_c := w }
    | 6, fn =>
      match (if fn = 0 then some FunCode.Add
             else if fn = 1 then some FunCode.Sub
             else if fn = 2 then some FunCode.And
             else if fn = 3 then some FunCode.Xor
             else none) with
      | none => Except.error "bad ifun for opx"
      | some f =>
        match m.mem[m.pc + 1]? with
        | none => Except.error "bad addr"
        | some b2 =>
          Except.ok { st with op := OpCode.Opx, fn := f,
                              r_a := b2 / 16, r_b := b2 % 16, val_p := m.pc + 2 }
    | 7, fn =>
      match condFunOfNibble fn with
      | none => Except.error "bad ifun for jxx"
      | some f =>
        match get_mem_word m (m.pc + 1) with
        | Except.error e => Except.error e
        | Except.ok w =>
          Except.ok { st with op := OpCode.Jxx, fn := f, val_c := w,
                              val_p := m.pc + 9 }
    | 8, _ =>
      match get_mem_word m (m.pc + 1) with
      | Except.error e => Except.error e
      | Except.ok w =>
        Except.ok { st with op := OpCode.Call, val_c := w, val_p := m.pc + 9 }
    | 9, _ =>
      Except.ok { st with op := OpCode.Ret, val_p := m.pc + 1 }
    | 10, _ =>
      match m.mem[m.pc + 1]? with
      | none => Except.error "bad addr"
      | some b2 =>
        Except.ok { st with op := OpCode.Push, r_a := b2 / 16, r_b := b2 % 16,
                            val_p := m.pc + 2 }
    | 11, _ =>
      match m.mem[m.pc + 1]? with
      | none => Except.error "bad addr"
      | some b2 =>
        Except.ok { st with op := OpCode.Pop, r_a := b2 / 16, r_b := b2 % 16,
                            val_p := m.pc + 2 }
    | _, _ => Except.error "bad icode"

/-- `Machine::decode`: the operand-read stage. -/
def decode (m : Machine) (st : CycleState) : Except String CycleState :=
  match st.op with
  | OpCode.Rmmov | OpCode.Opx | OpCode.Cmov =>
    match m.regs[st.r_a]?, m.regs[st.r_b]? with
    | some va, some vb => Except.ok { st with val_a := va, val_b := vb }
    | _, _ => Except.error "bad reg in rmmov/opx"
  | OpCode.Mrmov =>
    match m.regs[st.r_b]? with
    | some vb => Except.ok { st with val_b := vb }
    | none => Except.error "bad reg in cmov/mrmov"
  | OpCode.Call =>
    match m.regs[RSP]? with
    | some vb => Except.ok { st with val_b := vb }
    | none => Except.error "bad reg in call"
  | OpCode.Ret | OpCode.Pop =>
    match m.regs[RSP]? with
    | some v => Except.ok { st with val_b := v, val_a := v }
    | none => Except.error "bad reg in ret/pop"
  | OpCode.Push =>
    match m.regs[st.r_a]?, m.regs[RSP]? with
    | some va, some vb => Except.ok { st with val_a := va, val_b := vb }
    | _, _ => Except.error "bad reg in push"
  | _ => Except.ok st

/-- `Machine::execute`: ALU, condition evaluation, stack-delta and
effective-address computation; the only stage that writes the flags. -/
def execute (m : Machine) (st : CycleState) : Except String (Machine × CycleState) :=
  match st.op with
  | OpCode.Irmov => Except.ok (m, { st with val_e := st.val_c })
  | OpCode.Cmov =>
    let c := cond m st.fn
    Except.ok (m, { st with cnd := c, val_e := if c then st.val_a else st.val_b })
  | OpCode.Rmmov | OpCode.Mrmov =>
    Except.ok (m, { st with val_e := wrap64 (st.val_b + st.val_c) })
  | OpCode.Opx =>
    match st.fn with
    | FunCode.Add =>
      let res := wrap64 (st.val_b + st.val_a)
      Except.ok ({ m with flags :=
        { sf := decide (res < 0), zf := decide (res = 0),
          of := decide (res ≠ st.val_b + st.val_a) } },
        { st with val_e := res })
    | FunCode.Sub =>
      let res := wrap64 (st.val_b - st.val_a)
      Except.ok ({ m with flags :=
        { sf := decide (res < 0), zf := decide (res = 0),
          of := decide (res ≠ st.val_b - st.val_a) } },
        { st with val_e := res })
    | FunCode.And =>
      let res := iand64 st.val_b st.val_a
      Except.ok ({ m with flags :=
        { sf := decide (res < 0), zf := decide (res = 0), of := false } },
        { st with val_e := res })
    | FunCode.Xor =>
      let res := ixor64 st.val_b st.val_a
      Except.ok ({ m with flags :=
        { sf := decide (res < 0), zf := decide (res = 0), of := false } },
        { st with val_e := res })
    | _ => Except.error "bad fun for Opx"
  | OpCode.Jxx =>
    let c := cond m st.fn
    Except.ok (m, { st with cnd := c,
                            val_e := if c then st.val_c else ofU64 st.val_p })
  | OpCode.Call | OpCode.Push =>
    Except.ok (m, { st with val_e := wrap64 (st.val_b - 8) })
  | OpCode.Ret | OpCode.Pop =>
    Except.ok (m, { st with val_e := wrap64 (st.val_b + 8) })
  | OpCode.Halt | OpCode.Nop => Except.ok (m, { st with val_e := 0 })

/-- `Machine::memory`: the memory-access stage. -/
def memory (m : Machine) (st : CycleState) : Except String (Machine × CycleState) :=
  match st.op with
  | OpCode.Rmmov =>
    match set_mem_word m (toU64 st.val_e) st.val_a with
    | Except.ok mem1 => Except.ok ({ m with mem := mem1 }, st)
    | Except.error e => Except.error e
  | OpCode.Mrmov =>
    match get_mem_word m (toU64 st.val_e) with
    | Except.ok w => Except.ok (m, { st with val_m := w })
    | Except.error e => Except.error e
  | OpCode.Call =>
    match set_mem_word m (toU64 st.val_e) (ofU64 st.val_p) with
    | Except.ok mem1 => Except.ok ({ m with mem := mem1 }, st)
    | Except.error e => Except.error e
  | OpCode.Push =>
    match set_mem_word m (toU64 st.val_e) st.val_a with
    | Except.ok mem1 => Except.ok ({ m with mem := mem1 }, st)
    | Except.error e => Except.error e
  | OpCode.Ret | OpCode.Pop =>
    match get_mem_word m (toU64 st.val_a) with
    | Except.ok w => Except.ok (m, { st with val_m := w })
    | Except.error e => Except.error e
  | _ => Except.ok (m, st)

/-- `Machine::writeback`: commit results to the register file.  Returns the
machine together with the error, if any, because the `Pop` arm performs its
two register writes one after the other and could in principle fail between
them. -/
def writeback (m : Machine) (st : CycleState) : Machine × Option String :=
  match st.op with
  | OpCode.Irmov | OpCode.Cmov | OpCode.Opx =>
    if st.r_b < m.regs.length then
      ({ m with regs := m.regs.set st.r_b st.val_e }, none)
    else (m, some "bad reg for irmov")
  | OpCode.Mrmov =>
    if st.r_a < m.regs.length then
      ({ m with regs := m.regs.set st.r_a st.val_m }, none)
    else (m, some "bad reg for mrmov")
  | OpCode.Call | OpCode.Ret | OpCode.Push =>
    if RSP < m.regs.length then
      ({ m with regs := m.regs.set RSP st.val_e }, none)
    else (m, some "bad reg for call/ret/push")
  | OpCode.Pop =>
    if st.r_a < m.regs.length then
      let m1 : Machine := { m with regs := m.regs.set st.r_a st.val_a }
      if RSP < m1.regs.length then
        ({ m1 with regs := m1.regs.set RSP st.val_e }, none)
      else (m1, some "bad reg for mrmov")
    else (m, some "bad reg for pop")
  | _ => (m, none)

/-- `Machine::pc_update`: status transition on halt, then the next-pc
selection. -/
def pc_update (m : Machine) (st : CycleState) : Machine :=
  let m1 := if st.op = OpCode.Halt then { m with status := Status.Halt } else m
  { m1 with pc :=
      match st.op with
      | OpCode.Jxx => toU64 st.val_e
      | OpCode.Ret => toU64 st.val_m
      | OpCode.Call => toU64 st.val_c
      | _ => st.val_p }

/-- One pass of the body of `Machine::run`'s loop: the six stages threaded
over a fresh scratch record, stopping at the first stage failure.  Returns
the machine as left by the stages already executed, and the failure if one
occurred (the `?` propagation of the source). -/
def cycleResult (m : Machine) : Machine × Option String :=
  match fetch m initState with
  | Except.error e => (m, some e)
  | Except.ok s1 =>
    match decode m s1 with
    | Except.error e => (m, some e)
    | Except.ok s2 =>
      match execute m s2 with
      | Except.error e => (m, some e)
      | Except.ok (m3, s3) =>
        match memory m3 s3 with
        | Except.error e => (m3, some e)
        | Except.ok (m4, s4) =>
          match writeback m4 s4 with
          | (m5, some e) => (m5, some e)
          | (m5, none) => (pc_update m5 s4, none)

/-- `Machine::run`: repeat cycles while the status is `Aok`, incrementing
the cycle counter after each completed cycle; the first stage failure is
returned to the caller.  Fuel bounds the number of iterations so the
function is total; with enough fuel the result is the program's outcome. -/
def run : Nat → Machine → Machine × Option String
  | 0, m => (m, none)
  | fuel + 1, m =>
    if m.status = Status.Aok then
      match cycleResult m with
      | (m1, some e) => (m1, some e)
      | (m1, none) => run fuel { m1 with cycle := m1.cycle + 1 }
    else (m, none)

/-- The spec's `AddressOutOfBounds` error class, realized in the code as the
`anyhow::bail!` messages of the memory and register bounds checks. -/
def AddressOutOfBounds (e : String) : Prop :=
  e ∈ ["bad addr", "get word: bad addr", "set word: bad addr",
       "bad reg in rmmov/opx", "bad reg in cmov/mrmov", "bad reg in call",
       "bad reg in ret/pop", "bad reg in push", "bad reg for irmov",
       "bad reg for mrmov", "bad reg for call/ret/push", "bad reg for pop"]

/-! ## Arithmetic lemmas about the word helpers -/

theorem toU64_lt (x : Int) : toU64 x < 2 ^ 64 := by
  unfold toU64
  have h1 : x % (2 ^ 64 : Int) < 2 ^ 64 :=
    Int.emod_lt_of_pos x (by norm_num)
  omega

theorem toU64_coe_of_lt {n : Nat} (h : n < 2 ^ 64) : toU64 (n : Int) = n := by
  unfold toU64
  rw [Int.emod_eq_of_lt (by positivity) (by exact_mod_cast h)]
  exact Int.toNat_natCast n

theorem ofU64_of_lt {n : Nat} (h : n < 2 ^ 63) : ofU64 n = (n : Int) := by
  unfold ofU64
  rw [Nat.mod_eq_of_lt (lt_trans h (by norm_num)), if_pos h]

theorem wrap64_eq_self {x : Int} (h : inRange64 x) : wrap64 x = x := by
  obtain ⟨h1, h2⟩ := h
  unfold wrap64 ofU64 toU64
  simp only [show (2 : Int) ^ 64 = 18446744073709551616 by norm_num,
             show (2 : Int) ^ 63 = 9223372036854775808 by norm_num,
             show (2 : Nat) ^ 64 = 18446744073709551616 by norm_num,
             show (2 : Nat) ^ 63 = 9223372036854775808 by norm_num] at h1 h2 ⊢
  split <;> omega

theorem inRange64_ofU64 (n : Nat) : inRange64 (ofU64 n) := by
  unfold inRange64 ofU64
  have hlt : n % 2 ^ 64 < 2 ^ 64 := Nat.mod_lt n (by norm_num)
  simp only [show (2 : Int) ^ 64 = 18446744073709551616 by norm_num,
             show (2 : Int) ^ 63 = 9223372036854775808 by norm_num,
             show (2 : Nat) ^ 64 = 18446744073709551616 by norm_num,
             show (2 : Nat) ^ 63 = 9223372036854775808 by norm_num] at hlt ⊢
  split <;> omega

theorem inRange64_wrap64 (x : Int) : inRange64 (wrap64 x) := inRange64_ofU64 _

theorem wrap64_ne_iff {x : Int} : wrap64 x ≠ x ↔ ¬ inRange64 x := by
  constructor
  · intro hne hr
    exact hne (wrap64_eq_self hr)
  · intro hr heq
    exact hr (heq ▸ inRange64_wrap64 x)

theorem wrap64_coe_of_lt {n : Nat} (h : n < 2 ^ 63) : wrap64 (n : Int) = (n : Int) := by
  refine wrap64_eq_self ⟨?_, ?_⟩
  · have : (0 : Int) ≤ n := Int.natCast_nonneg n
    omega
  · exact_mod_cast h

theorem toU64_coe_nat {n : Nat} (h : n < 2 ^ 64) : toU64 ((n : Nat) : Int) = n :=
  toU64_coe_of_lt h

/-! ## Lemmas about the byte-level word encoding -/

theorem length_leBytesAux (k n : Nat) : (leBytesAux k n).length = k := by
  induction k generalizing n with
  | zero => rfl
  | succ k ih => simp [leBytesAux, ih]

theorem length_leBytes (w : Int) : (leBytes w).length = 8 :=
  length_leBytesAux 8 (toU64 w)

theorem le64_leBytesAux (k n : Nat) : le64 (leBytesAux k n) = n % 256 ^ k := by
  induction k generalizing n with
  | zero => simp [leBytesAux, le64, Nat.mod_one]
  | succ k ih =>
    have hsplit : n % 256 ^ (k + 1) = n % 256 + 256 * (n / 256 % 256 ^ k) := by
      rw [pow_succ', Nat.mod_mul]
    simp only [leBytesAux, le64, List.foldr_cons, hsplit]
    have := ih (n / 256)
    simp only [le64] at this
    rw [this]
    omega

theorem le64_leBytes (w : Int) : le64 (leBytes w) = toU64 w := by
  unfold leBytes
  rw [le64_leBytesAux]
  exact Nat.mod_eq_of_lt (by simpa using (toU64_lt w))

/-! ## Lemmas about word-granular memory access -/

theorem set_mem_word_ok {m : Machine} {a : Nat} {w : Int} {mem1 : List Nat}
    (h : set_mem_word m a w = Except.ok mem1) :
    a + 8 ≤ m.mem.length ∧
      mem1 = m.mem.take a ++ leBytes w ++ m.mem.drop (a + 8) := by
  unfold set_mem_word at h
  split at h
  · refine ⟨by assumption, ?_⟩
    injection h with h'
    exact h'.symm
  · exact Except.noConfusion h

theorem set_mem_word_length {m : Machine} {a : Nat} {w : Int} {mem1 : List Nat}
    (h : set_mem_word m a w = Except.ok mem1) :
    mem1.length = m.mem.length := by
  obtain ⟨hle, rfl⟩ := set_mem_word_ok h
  simp [length_leBytes]
  omega

theorem get_after_set {m m' : Machine} {a : Nat} {w : Int} {mem1 : List Nat}
    (h : set_mem_word m a w = Except.ok mem1) (hm' : m'.mem = mem1) :
    get_mem_word m' a = Except.ok (wrap64 w) := by
  obtain ⟨hle, rfl⟩ := set_mem_word_ok h
  have hlen : (m.mem.take a).length = a := by simp; omega
  have hdrop : ((m.mem.take a ++ leBytes w ++ m.mem.drop (a + 8)).drop a)
      = leBytes w ++ m.mem.drop (a + 8) := by
    rw [List.append_assoc, List.drop_left' hlen]
  have htake : ((leBytes w ++ m.mem.drop (a + 8)).take 8) = leBytes w :=
    List.take_left' (length_leBytes w)
  unfold get_mem_word
  rw [hm']
  have hlen2 : (m.mem.take a ++ leBytes w ++ m.mem.drop (a + 8)).length
      = m.mem.length := by simp [length_leBytes]; omega
  rw [hlen2, if_pos hle, hdrop, htake, le64_leBytes]
  rfl

theorem set_frame {m : Machine} {a : Nat} {w : Int} {mem1 : List Nat}
    (h : set_mem_word m a w = Except.ok mem1) (i : Nat)
    (hi : i < a ∨ a + 8 ≤ i) : mem1[i]? = m.mem[i]? := by
  obtain ⟨hle, rfl⟩ := set_mem_word_ok h
  have hlen : (m.mem.take a).length = a := by simp; omega
  rcases hi with hi | hi
  · rw [List.append_assoc, List.getElem?_append_left (by omega),
      List.getElem?_take_of_lt hi]
  · rw [List.append_assoc, List.getElem?_append_right (by omega)]
    rw [hlen, List.getElem?_append_right (by rw [length_leBytes]; omega)]
    rw [length_leBytes, List.getElem?_drop]
    congr 1
    omega

theorem get_mem_word_oob {m : Machine} {a : Nat}
    (h : m.mem.length < a + 8) :
    get_mem_word m a = Except.error "get word: bad addr" := by
  unfold get_mem_word
  rw [if_neg (by omega)]

theorem set_mem_word_oob {m : Machine} {a : Nat} {w : Int}
    (h : m.mem.length < a + 8) :
    set_mem_word m a w = Except.error "set word: bad addr" := by
  unfold set_mem_word
  rw [if_neg (by omega)]

/-! ## Field-preservation and error-analysis lemmas for the stages -/

theorem getElem?_some_lt {α : Type _} {l : List α} {n : Nat} {a : α}
    (h : l[n]? = some a) : n < l.length := by
  by_contra hc
  rw [List.getElem?_eq_none (by omega)] at h
  exact Option.noConfusion h

theorem decode_ok_fields {m : Machine} {st st' : CycleState}
    (h : decode m st = Except.ok st') :
    st'.op = st.op ∧ st'.fn = st.fn ∧ st'.r_a = st.r_a ∧ st'.r_b = st.r_b ∧
      st'.val_c = st.val_c ∧ st'.val_p = st.val_p := by
  unfold decode at h
  split at h <;>
    first
    | (injection h with h2; subst h2; simp)
    | (split at h <;>
        first
        | (injection h with h2; subst h2; simp)
        | exact Except.noConfusion h)

theorem decode_ok_bounds {m : Machine} {st st' : CycleState}
    (h : decode m st = Except.ok st') :
    ((st.op = OpCode.Rmmov ∨ st.op = OpCode.Opx ∨ st.op = OpCode.Cmov) →
       st.r_a < m.regs.length ∧ st.r_b < m.regs.length) ∧
    (st.op = OpCode.Mrmov → st.r_b < m.regs.length) ∧
    (st.op = OpCode.Push → st.r_a < m.regs.length) := by
  unfold decode at h
  split at h
  next heq =>
    split at h
    next va vb heq1 heq2 =>
      exact ⟨fun _ => ⟨getElem?_some_lt heq1, getElem?_some_lt heq2⟩,
        by simp [heq], by simp [heq]⟩
    next => exact Except.noConfusion h
  next heq =>
    split at h
    next va vb heq1 heq2 =>
      exact ⟨fun _ => ⟨getElem?_some_lt heq1, getElem?_some_lt heq2⟩,
        by simp [heq], by simp [heq]⟩
    next => exact Except.noConfusion h
  next heq =>
    split at h
    next va vb heq1 heq2 =>
      exact ⟨fun _ => ⟨getElem?_some_lt heq1, getElem?_some_lt heq2⟩,
        by simp [heq], by simp [heq]⟩
    next => exact Except.noConfusion h
  next heq =>
    split at h
    next vb heq1 =>
      exact ⟨by simp [heq], fun _ => getElem?_some_lt heq1, by simp [heq]⟩
    next => exact Except.noConfusion h
  next heq =>
    split at h
    next vb heq1 => exact ⟨by simp [heq], by simp [heq], by simp [heq]⟩
    next => exact Except.noConfusion h
  next heq =>
    split at h
    next v heq1 => exact ⟨by simp [heq], by simp [heq], by simp [heq]⟩
    next => exact Except.noConfusion h
  next heq =>
    split at h
    next v heq1 => exact ⟨by simp [heq], by simp [heq], by simp [heq]⟩
    next => exact Except.noConfusion h
  next heq =>
    split at h
    next va vb heq1 heq2 =>
      exact ⟨by simp [heq], by simp [heq], fun _ => getElem?_some_lt heq1⟩
    next => exact Except.noConfusion h
  next h1 h2 h3 h4 h5 h6 h7 h8 =>
    refine ⟨fun hc => ?_, fun hc => absurd hc h4, fun hc => absurd hc h8⟩
    rcases hc with hc | hc | hc
    exacts [absurd hc h1, absurd hc h2, absurd hc h3]

theorem execute_ok_fields {m m' : Machine} {st st' : CycleState}
    (h : execute m st = Except.ok (m', st')) :
    st'.op = st.op ∧ st'.fn = st.fn ∧ st'.r_a = st.r_a ∧ st'.r_b = st.r_b ∧
      st'.val_c = st.val_c ∧ st'.val_p = st.val_p ∧ st'.val_a = st.val_a ∧
      st'.val_b = st.val_b ∧ st'.val_m = st.val_m := by
  obtain ⟨op, f, ra, rb, vc, vp, va, vb, ve, vm, cd⟩ := st
  cases op <;> try cases f
  all_goals simp [execute] at h
  all_goals obtain ⟨hm2, hs2⟩ := h
  all_goals subst hs2
  all_goals simp

theorem execute_ok_machine {m m' : Machine} {st st' : CycleState}
    (h : execute m st = Except.ok (m', st')) :
    m'.mem = m.mem ∧ m'.regs = m.regs ∧ m'.status = m.status ∧
      m'.pc = m.pc ∧ m'.cycle = m.cycle ∧ (st.op ≠ OpCode.Opx → m' = m) := by
  obtain ⟨op, f, ra, rb, vc, vp, va, vb, ve, vm, cd⟩ := st
  cases op <;> try cases f
  all_goals simp [execute] at h
  all_goals obtain ⟨hm2, hs2⟩ := h
  all_goals subst hm2
  all_goals simp

theorem memory_ok_fields {m m' : Machine} {st st' : CycleState}
    (h : memory m st = Except.ok (m', st')) :
    st'.op = st.op ∧ st'.fn = st.fn ∧ st'.r_a = st.r_a ∧ st'.r_b = st.r_b ∧
      st'.val_c = st.val_c ∧ st'.val_p = st.val_p ∧ st'.val_a = st.val_a ∧
      st'.val_b = st.val_b ∧ st'.val_e = st.val_e ∧ st'.cnd = st.cnd := by
  unfold memory at h
  split at h <;>
    first
    | (injection h with h2; injection h2 with hm2 hs2; subst hs2; simp)
    | (split at h <;>
        first
        | (injection h with h2; injection h2 with hm2 hs2; subst hs2; simp)
        | exact Except.noConfusion h)

theorem memory_ok_machine {m m' : Machine} {st st' : CycleState}
    (h : memory m st = Except.ok (m', st')) :
    m'.regs = m.regs ∧ m'.flags = m.flags ∧ m'.status = m.status ∧
      m'.pc = m.pc ∧ m'.cycle = m.cycle ∧
      (st.op ≠ OpCode.Rmmov → st.op ≠ OpCode.Call → st.op ≠ OpCode.Push →
        m' = m) := by
  unfold memory at h
  split at h
  next heq =>
    split at h
    next mem1 hsw =>
      injection h with h2
      injection h2 with hm2 hs2
      subst hm2
      simp [heq]
    next => exact Except.noConfusion h
  next heq =>
    split at h
    next w hg =>
      injection h with h2
      injection h2 with hm2 hs2
      subst hm2
      simp
    next => exact Except.noConfusion h
  next heq =>
    split at h
    next mem1 hsw =>
      injection h with h2
      injection h2 with hm2 hs2
      subst hm2
      simp [heq]
    next => exact Except.noConfusion h
  next heq =>
    split at h
    next mem1 hsw =>
      injection h with h2
      injection h2 with hm2 hs2
      subst hm2
      simp [heq]
    next => exact Except.noConfusion h
  next heq =>
    split at h
    next w hg =>
      injection h with h2
      injection h2 with hm2 hs2
      subst hm2
      simp
    next => exact Except.noConfusion h
  next heq =>
    split at h
    next w hg =>
      injection h with h2
      injection h2 with hm2 hs2
      subst hm2
      simp
    next => exact Except.noConfusion h
  next =>
    injection h with h2
    injection h2 with hm2 hs2
    subst hm2
    simp

theorem memory_error_op {m : Machine} {st : CycleState} {e : String}
    (h : memory m st = Except.error e) :
    st.op = OpCode.Rmmov ∨ st.op = OpCode.Mrmov ∨ st.op = OpCode.Call ∨
      st.op = OpCode.Push ∨ st.op = OpCode.Ret ∨ st.op = OpCode.Pop := by
  unfold memory at h
  split at h <;>
    first
    | exact Except.noConfusion h
    | (rename_i heq; simp [heq])

theorem writeback_error {m m' : Machine} {st : CycleState} {e : String}
    (hlen : m.regs.length = 15) (h : writeback m st = (m', some e)) :
    m' = m ∧
      (((st.op = OpCode.Irmov ∨ st.op = OpCode.Cmov ∨ st.op = OpCode.Opx) ∧
          15 ≤ st.r_b) ∨
       ((st.op = OpCode.Mrmov ∨ st.op = OpCode.Pop) ∧ 15 ≤ st.r_a)) := by
  unfold writeback at h
  split at h
  next heq =>
    split_ifs at h with hc
    · injection h with hm2 ho; exact Option.noConfusion ho
    · injection h with hm2 ho
      exact ⟨hm2.symm, Or.inl ⟨Or.inl heq, by omega⟩⟩
  next heq =>
    split_ifs at h with hc
    · injection h with hm2 ho; exact Option.noConfusion ho
    · injection h with hm2 ho
      exact ⟨hm2.symm, Or.inl ⟨Or.inr (Or.inl heq), by omega⟩⟩
  next heq =>
    split_ifs at h with hc
    · injection h with hm2 ho; exact Option.noConfusion ho
    · injection h with hm2 ho
      exact ⟨hm2.symm, Or.inl ⟨Or.inr (Or.inr heq), by omega⟩⟩
  next heq =>
    split_ifs at h with hc
    · injection h with hm2 ho; exact Option.noConfusion ho
    · injection h with hm2 ho
      exact ⟨hm2.symm, Or.inr ⟨Or.inl heq, by omega⟩⟩
  next heq =>
    split_ifs at h with hc
    · injection h with hm2 ho; exact Option.noConfusion ho
    · exfalso; rw [hlen] at hc; exact hc (by norm_num [RSP])
  next heq =>
    split_ifs at h with hc
    · injection h with hm2 ho; exact Option.noConfusion ho
    · exfalso; rw [hlen] at hc; exact hc (by norm_num [RSP])
  next heq =>
    split_ifs at h with hc
    · injection h with hm2 ho; exact Option.noConfusion ho
    · exfalso; rw [hlen] at hc; exact hc (by norm_num [RSP])
  next heq =>
    simp only [List.length_set] at h
    split_ifs at h with hc1 hc2
    · injection h with hm2 ho; exact Option.noConfusion ho
    · exfalso
      rw [hlen] at hc2
      exact hc2 (by norm_num [RSP])
    · injection h with hm2 ho
      exact ⟨hm2.symm, Or.inr ⟨Or.inr heq, by omega⟩⟩
  next =>
    injection h with hm2 ho
    exact Option.noConfusion ho

theorem writeback_ok_machine {m m' : Machine} {st : CycleState}
    (h : writeback m st = (m', none)) :
    m'.mem = m.mem ∧ m'.flags = m.flags ∧ m'.status = m.status ∧
      m'.pc = m.pc ∧ m'.cycle = m.cycle := by
  unfold writeback at h
  split at h <;> (try simp only [List.length_set] at h) <;> try split_ifs at h
  all_goals injection h with hm2 ho
  all_goals subst hm2
  all_goals simp

/-- A cycle that fails at any stage leaves the machine exactly as it was:
every stage's bounds checks run before its writes, except for `Pop`'s
two-part writeback, whose second write cannot fail on the 15-register file
built by `Machine::new`. -/
theorem cycle_error_frame {m m' : Machine} {e : String}
    (hlen : m.regs.length = 15) (h : cycleResult m = (m', some e)) : m' = m := by
  unfold cycleResult at h
  cases hf : fetch m initState with
  | error e1 => rw [hf] at h; dsimp only at h; injection h with h1 h2; exact h1.symm
  | ok s1 =>
    rw [hf] at h
    dsimp only at h
    cases hd : decode m s1 with
    | error e1 => rw [hd] at h; dsimp only at h; injection h with h1 h2; exact h1.symm
    | ok s2 =>
      rw [hd] at h
      dsimp only at h
      cases hx : execute m s2 with
      | error e1 => rw [hx] at h; dsimp only at h; injection h with h1 h2; exact h1.symm
      | ok p3 =>
        obtain ⟨m3, s3⟩ := p3
        rw [hx] at h
        dsimp only at h
        have hop21 := (decode_ok_fields hd).1
        have hop32 := (execute_ok_fields hx).1
        cases hm : memory m3 s3 with
        | error e1 =>
          rw [hm] at h
          dsimp only at h
          injection h with h1 h2
          have hop6 := memory_error_op hm
          rw [hop32] at hop6
          have hne : s2.op ≠ OpCode.Opx := by
            rcases hop6 with h6 | h6 | h6 | h6 | h6 | h6 <;> simp [h6]
          rw [← h1, (execute_ok_machine hx).2.2.2.2.2 hne]
        | ok p4 =>
          obtain ⟨m4, s4⟩ := p4
          rw [hm] at h
          dsimp only at h
          cases hw : writeback m4 s4 with
          | mk m5 oe =>
            rw [hw] at h
            cases oe with
            | none =>
              dsimp only at h
              injection h with h1 h2
              exact Option.noConfusion h2
            | some e1 =>
              dsimp only at h
              injection h with h1 h2
              have hxm := execute_ok_machine hx
              have hmm := memory_ok_machine hm
              have hlen4 : m4.regs.length = 15 := by rw [hmm.1, hxm.2.1, hlen]
              obtain ⟨h5m, hcases⟩ := writeback_error hlen4 hw
              have hop43 := (memory_ok_fields hm).1
              have hra41 : s4.r_a = s1.r_a := by
                rw [(memory_ok_fields hm).2.2.1, (execute_ok_fields hx).2.2.1,
                  (decode_ok_fields hd).2.2.1]
              have hrb41 : s4.r_b = s1.r_b := by
                rw [(memory_ok_fields hm).2.2.2.1, (execute_ok_fields hx).2.2.2.1,
                  (decode_ok_fields hd).2.2.2.1]
              have hop41 : s4.op = s1.op := by rw [hop43, hop32, hop21]
              have hbounds := decode_ok_bounds hd
              have frame : s4.op ≠ OpCode.Opx → s4.op ≠ OpCode.Rmmov →
                  s4.op ≠ OpCode.Call → s4.op ≠ OpCode.Push → m' = m := by
                intro hne1 hne2 hne3 hne4
                rw [hop43, hop32] at hne1
                rw [hop43] at hne2 hne3 hne4
                rw [← h1, h5m, hmm.2.2.2.2.2 hne2 hne3 hne4,
                  hxm.2.2.2.2.2 hne1]
              rcases hcases with ⟨hop, hrb⟩ | ⟨hop, hra⟩
              · rcases hop with hop | hop | hop
                · exact frame (by simp [hop]) (by simp [hop]) (by simp [hop])
                    (by simp [hop])
                · exfalso
                  rw [hop] at hop41
                  have := (hbounds.1 (Or.inr (Or.inr hop41.symm))).2
                  rw [hlen] at this
                  omega
                · exfalso
                  rw [hop] at hop41
                  have := (hbounds.1 (Or.inr (Or.inl hop41.symm))).2
                  rw [hlen] at this
                  omega
              · rcases hop with hop | hop
                · exact frame (by simp [hop]) (by simp [hop]) (by simp [hop])
                    (by simp [hop])
                · exact frame (by simp [hop]) (by simp [hop]) (by simp [hop])
                    (by simp [hop])

/-! ## Whole-cycle computation lemmas for single instructions -/

/-- A halt instruction at `pc` completes its cycle: status becomes `Halt`,
`pc` advances to the following byte, and nothing else changes. -/
theorem cycle_halt {m : Machine} {b : Nat}
    (hb : m.mem[m.pc]? = some b) (hcode : b / 16 = 0) :
    cycleResult m = ({ m with status := Status.Halt, pc := m.pc + 1 }, none) := by
  simp [cycleResult, fetch, decode, execute, memory, writeback, pc_update,
    hb, hcode]

/-- A call instruction: the return address `pc + 9` is stored at the
decremented stack pointer, the stack-pointer register is decremented, and
control transfers to the call target. -/
theorem cycle_call {m : Machine} {b : Nat} {t rsp : Int} {mem1 : List Nat}
    (hb : m.mem[m.pc]? = some b) (hcode : b / 16 = 8)
    (ht : get_mem_word m (m.pc + 1) = Except.ok t)
    (hrsp : m.regs[RSP]? = some rsp)
    (hlen : m.regs.length = 15)
    (hset : set_mem_word m (toU64 (wrap64 (rsp - 8))) (ofU64 (m.pc + 9)) =
      Except.ok mem1) :
    cycleResult m = ({ m with mem := mem1,
                              regs := m.regs.set RSP (wrap64 (rsp - 8)),
                              pc := toU64 t }, none) := by
  have h4 : 4 < m.regs.length := by omega
  rw [show (RSP : Nat) = 4 from rfl, List.getElem?_eq_getElem h4] at hrsp
  injection hrsp with hrspe
  simp [cycleResult, fetch, decode, execute, memory, writeback, pc_update,
    hb, hcode, ht, hrspe, hlen, hset, RSP]

/-- A return instruction: the word at the current stack-pointer address is
loaded, the stack-pointer register is incremented, and control transfers to
the loaded address. -/
theorem cycle_ret {m : Machine} {b : Nat} {sp w : Int}
    (hb : m.mem[m.pc]? = some b) (hcode : b / 16 = 9)
    (hsp : m.regs[RSP]? = some sp)
    (hlen : m.regs.length = 15)
    (hw : get_mem_word m (toU64 sp) = Except.ok w) :
    cycleResult m = ({ m with regs := m.regs.set RSP (wrap64 (sp + 8)),
                              pc := toU64 w }, none) := by
  have h4 : 4 < m.regs.length := by omega
  rw [show (RSP : Nat) = 4 from rfl, List.getElem?_eq_getElem h4] at hsp
  injection hsp with hspe
  simp [cycleResult, fetch, decode, execute, memory, writeback, pc_update,
    hb, hcode, hspe, hlen, hw, RSP]

/-! ## Claims -/

/-- Modelled from the spec: the condition-predicate truth table of §4.3,
with the greater-or-equal row written exactly as the table gives it,
`not (sign xor overflow) and not zero`.  Used only to compare the code's
evaluator against the table. -/
def spec_cond (sf zf o : Bool) (fn : FunCode) : Bool :=
  match fn with
  | FunCode.Ucnd => true
  | FunCode.Lte => (Bool.xor sf o) || zf
  | FunCode.Lt => Bool.xor sf o
  | FunCode.Eq => zf
  | FunCode.Neq => !zf
  | FunCode.Gte => !(Bool.xor sf o) && !zf
  | FunCode.Gt => !(Bool.xor sf o)
  | _ => false

/-- Claim C1, counterexample: with all three flags clear, the code's
condition evaluator answers `false` for the ≥ predicate while the table of
§4.3 demands `not (false xor false) and not false = true`.  The code
computes `not (sign xor overflow) and zero` for ≥. -/
theorem cond_gte_counterexample :
    cond (Machine.new 1) FunCode.Gte ≠
      spec_cond false false false FunCode.Gte := by
  decide

/-- Claim C1 (amended): for every machine state the condition evaluator
returns exactly the table's boolean for always, ≤, <, =, ≠ and >, but for ≥
it returns `not (sign xor overflow) and zero` instead of the table's
`not (sign xor overflow) and not zero`. -/
theorem cond_truth_table (m : Machine) :
    cond m FunCode.Ucnd = spec_cond m.flags.sf m.flags.zf m.flags.of FunCode.Ucnd ∧
    cond m FunCode.Lte = spec_cond m.flags.sf m.flags.zf m.flags.of FunCode.Lte ∧
    cond m FunCode.Lt = spec_cond m.flags.sf m.flags.zf m.flags.of FunCode.Lt ∧
    cond m FunCode.Eq = spec_cond m.flags.sf m.flags.zf m.flags.of FunCode.Eq ∧
    cond m FunCode.Neq = spec_cond m.flags.sf m.flags.zf m.flags.of FunCode.Neq ∧
    cond m FunCode.Gt = spec_cond m.flags.sf m.flags.zf m.flags.of FunCode.Gt ∧
    cond m FunCode.Gte = (!(Bool.xor m.flags.sf m.flags.of) && m.flags.zf) :=
  ⟨rfl, rfl, rfl, rfl, rfl, rfl, rfl⟩

/-- Claim C7: for every cycle scratch record, the PC-update stage sets the
new program counter to `valE` for a conditional jump, `valM` for return,
`valC` for call, and `valP` for every other opcode (the `isize` values going
through the `as usize` reinterpretation the source performs). -/
theorem pc_update_selection (m : Machine) (st : CycleState) :
    (st.op = OpCode.Jxx → (pc_update m st).pc = toU64 st.val_e) ∧
    (st.op = OpCode.Ret → (pc_update m st).pc = toU64 st.val_m) ∧
    (st.op = OpCode.Call → (pc_update m st).pc = toU64 st.val_c) ∧
    (st.op ≠ OpCode.Jxx → st.op ≠ OpCode.Ret → st.op ≠ OpCode.Call →
      (pc_update m st).pc = st.val_p) := by
  obtain ⟨op, f, ra, rb, vc, vp, va, vb, ve, vm, cd⟩ := st
  cases op <;> simp [pc_update]

/-- Claim C7 witness: a conditional jump's scratch record makes PC update
select `valE`. -/
theorem pc_update_selection_witness :
    (pc_update (Machine.new 1)
      { initState with op := OpCode.Jxx, val_e := 5 }).pc = toU64 5 :=
  (pc_update_selection (Machine.new 1)
    { initState with op := OpCode.Jxx, val_e := 5 }).1 rfl

/-- Claim C9: a successful fetch sets `valP = pc + length` with length 1 for
halt, nop and return; 2 for the ALU ops, push and pop; 10 for the
immediate-load, store and load; and 9 for call and jump. -/
theorem fetch_valp_instruction_length {m : Machine} {st st' : CycleState}
    (h : fetch m st = Except.ok st') :
    (st'.op = OpCode.Halt → st'.val_p = m.pc + 1) ∧
    (st'.op = OpCode.Nop → st'.val_p = m.pc + 1) ∧
    (st'.op = OpCode.Ret → st'.val_p = m.pc + 1) ∧
    (st'.op = OpCode.Opx → st'.val_p = m.pc + 2) ∧
    (st'.op = OpCode.Push → st'.val_p = m.pc + 2) ∧
    (st'.op = OpCode.Pop → st'.val_p = m.pc + 2) ∧
    (st'.op = OpCode.Irmov → st'.val_p = m.pc + 10) ∧
    (st'.op = OpCode.Rmmov → st'.val_p = m.pc + 10) ∧
    (st'.op = OpCode.Mrmov → st'.val_p = m.pc + 10) ∧
    (st'.op = OpCode.Call → st'.val_p = m.pc + 9) ∧
    (st'.op = OpCode.Jxx → st'.val_p = m.pc + 9) := by
  unfold fetch at h
  cases hmb : m.mem[m.pc]? with
  | none => rw [hmb] at h; exact Except.noConfusion h
  | some b =>
    rw [hmb] at h
    dsimp only at h
    split at h <;>
      first
      | exact Except.noConfusion h
      | (injection h with h2; subst h2; simp)
      | (split at h <;>
          first
          | exact Except.noConfusion h
          | (injection h with h2; subst h2; simp)
          | (split at h <;>
              first
              | exact Except.noConfusion h
              | (injection h with h2; subst h2; simp)))

/-- Claim C9 witness: fetching the halt byte at pc 0 yields `valP = 1`. -/
theorem fetch_valp_instruction_length_witness :
    fetch (Machine.new 4) initState =
        Except.ok { initState with op := OpCode.Halt, val_p := 1 } ∧
      ({ initState with op := OpCode.Halt, val_p := 1 } : CycleState).val_p =
        (Machine.new 4).pc + 1 := by
  have h : fetch (Machine.new 4) initState =
      Except.ok { initState with op := OpCode.Halt, val_p := 1 } := by decide
  exact ⟨h, (fetch_valp_instruction_length h).1 rfl⟩

/-- Claim C5: every ALU instruction sets sign and zero from its own result
and sets overflow exactly when an add/sub leaves the two's-complement
machine-word range (never for and/xor); the execute stage leaves the flags
untouched for every other opcode (and no other stage writes them: `execute`
is the only stage whose result carries a changed `flags` field). -/
theorem opx_flag_semantics {m m' : Machine} {st st' : CycleState}
    (h : execute m st = Except.ok (m', st')) :
    (st.op = OpCode.Opx →
       m'.flags.sf = decide (st'.val_e < 0) ∧
       m'.flags.zf = decide (st'.val_e = 0) ∧
       ((st.fn = FunCode.And ∨ st.fn = FunCode.Xor) → m'.flags.of = false) ∧
       (st.fn = FunCode.Add →
         (m'.flags.of = true ↔ ¬ inRange64 (st.val_b + st.val_a))) ∧
       (st.fn = FunCode.Sub →
         (m'.flags.of = true ↔ ¬ inRange64 (st.val_b - st.val_a)))) ∧
    (st.op ≠ OpCode.Opx → m'.flags = m.flags) := by
  obtain ⟨op, f, ra, rb, vc, vp, va, vb, ve, vm, cd⟩ := st
  cases op <;> try cases f
  all_goals simp [execute] at h
  all_goals obtain ⟨hm2, hs2⟩ := h
  all_goals subst hm2
  all_goals subst hs2
  all_goals simp [wrap64_ne_iff]

/-- Claim C5 witness: adding 1 to the greatest machine word overflows,
giving a negative, nonzero result with the overflow flag set. -/
theorem opx_flag_semantics_witness :
    execute (Machine.new 0)
        { initState with op := OpCode.Opx, fn := FunCode.Add,
                         val_b := 2 ^ 63 - 1, val_a := 1 } =
      Except.ok
        ({ Machine.new 0 with
             flags := { sf := true, zf := false, of := true } },
         { initState with op := OpCode.Opx, fn := FunCode.Add,
                          val_b := 2 ^ 63 - 1, val_a := 1,
                          val_e := -(2 ^ 63) }) ∧
    ((true : Bool) = true ↔ ¬ inRange64 ((2 ^ 63 - 1 : Int) + 1)) := by
  have h : execute (Machine.new 0)
      { initState with op := OpCode.Opx, fn := FunCode.Add,
                       val_b := 2 ^ 63 - 1, val_a := 1 } =
    Except.ok
      ({ Machine.new 0 with
           flags := { sf := true, zf := false, of := true } },
       { initState with op := OpCode.Opx, fn := FunCode.Add,
                        val_b := 2 ^ 63 - 1, val_a := 1,
                        val_e := -(2 ^ 63) }) := by decide
  exact ⟨h, ((opx_flag_semantics h).1 rfl).2.2.2.1 rfl⟩

/-- Claim C10: a halt decoded at the current pc still runs PC update after
the status transition: the cycle completes without error, the final state
has status `Halt` and `pc = a + 1`, and memory, registers and flags are
untouched; `run` performs that one cycle (incrementing the cycle counter)
and then stops. -/
theorem halt_cycle_behavior {m : Machine} {b : Nat} (fuel : Nat)
    (hst : m.status = Status.Aok)
    (hb : m.mem[m.pc]? = some b) (hcode : b / 16 = 0) :
    cycleResult m = ({ m with status := Status.Halt, pc := m.pc + 1 }, none) ∧
    run (fuel + 2) m =
      ({ m with status := Status.Halt, pc := m.pc + 1, cycle := m.cycle + 1 },
        none) := by
  have hc := cycle_halt hb hcode
  refine ⟨hc, ?_⟩
  have h1 : run (fuel + 2) m = run (fuel + 1)
      { m with status := Status.Halt, pc := m.pc + 1,
               cycle := m.cycle + 1 } := by
    rw [show fuel + 2 = fuel + 1 + 1 from rfl]
    simp [run, hst, hc]
  rw [h1]
  simp [run]

/-- Claim C10 witness: a 4-byte zeroed machine halts in one cycle with
pc 1. -/
theorem halt_cycle_behavior_witness :
    (Machine.new 4).status = Status.Aok ∧
      run 2 (Machine.new 4) =
        ({ Machine.new 4 with status := Status.Halt, pc := 1, cycle := 1 },
          none) :=
  ⟨rfl, (halt_cycle_behavior 0 rfl
    (show (Machine.new 4).mem[(Machine.new 4).pc]? = some 0 by decide)
    rfl).2⟩

/-- Claim C4, counterexample: on an empty memory the very first fetch fails;
`run` propagates the error `"bad addr"` verbatim, but the machine's status
field remains `Aok` — the `Status` type of this code has only `Halt` and
`Aok`, so no transition to an `Errored` status exists or happens. -/
theorem run_error_status_counterexample :
    run 3 (Machine.new 0) = (Machine.new 0, some "bad addr") ∧
      (run 3 (Machine.new 0)).1.status = Status.Aok := by
  constructor <;> decide

/-- Claim C4 (amended): the first stage failure makes `run` stop
immediately — no retry, no further cycle — returning the machine unchanged
together with the error value of the failing stage, propagated verbatim;
the status field keeps its `Aok` value (the code has no `Errored` status). -/
theorem run_stops_at_first_stage_error {m m1 : Machine} {e : String}
    (fuel : Nat) (hlen : m.regs.length = 15) (hst : m.status = Status.Aok)
    (hc : cycleResult m = (m1, some e)) :
    run (fuel + 1) m = (m, some e) ∧ m1 = m := by
  have hm1 : m1 = m := cycle_error_frame hlen hc
  subst hm1
  refine ⟨?_, rfl⟩
  simp [run, hst, hc]

/-- Claim C4 witness: the empty-memory machine errors on its first cycle and
`run` returns it unchanged with the fetch error. -/
theorem run_stops_at_first_stage_error_witness :
    (Machine.new 0).regs.length = 15 ∧
      run 5 (Machine.new 0) = (Machine.new 0, some "bad addr") :=
  ⟨by decide,
   (run_stops_at_first_stage_error 4 (by decide) rfl
     (show cycleResult (Machine.new 0) = (Machine.new 0, some "bad addr")
       by decide)).1⟩

/-- Claim C8: (1) any failing cycle leaves the machine state — memory,
registers, flags, status, pc, cycle counter — exactly unchanged; (2) a word
read whose 8 bytes would reach at or past the end of memory fails with the
bounds-check error of `get_mem_word`; (3) likewise for a word write; (4) a
fetch at a pc at or past the end of memory fails the cycle with the fetch
bounds error and no mutation; (5) a register index ≥ 15 is rejected by the
15-entry register file's checked lookup.  All the named errors belong to the
`AddressOutOfBounds` class. -/
theorem oob_access_fails_without_mutation :
    (∀ (m m1 : Machine) (e : String), m.regs.length = 15 →
       cycleResult m = (m1, some e) → m1 = m) ∧
    (∀ (m : Machine) (a : Nat),
       (get_mem_word m a = Except.error "get word: bad addr" ↔
         m.mem.length < a + 8) ∧
         AddressOutOfBounds "get word: bad addr") ∧
    (∀ (m : Machine) (a : Nat) (w : Int),
       (set_mem_word m a w = Except.error "set word: bad addr" ↔
         m.mem.length < a + 8) ∧
         AddressOutOfBounds "set word: bad addr") ∧
    (∀ m : Machine, m.mem.length ≤ m.pc →
       cycleResult m = (m, some "bad addr") ∧
         AddressOutOfBounds "bad addr") ∧
    (∀ (regs : List Int) (i : Nat), regs.length = 15 → 15 ≤ i →
       regs[i]? = none) := by
  refine ⟨fun m m1 e hlen hc => cycle_error_frame hlen hc,
          fun m a => ⟨⟨fun hg => ?_, fun h => get_mem_word_oob h⟩,
            by simp [AddressOutOfBounds]⟩,
          fun m a w => ⟨⟨fun hs => ?_, fun h => set_mem_word_oob h⟩,
            by simp [AddressOutOfBounds]⟩,
          fun m h => ⟨?_, by simp [AddressOutOfBounds]⟩,
          fun regs i hl hi => List.getElem?_eq_none (by omega)⟩
  · by_contra hc
    rw [get_mem_word, if_pos (by omega)] at hg
    exact Except.noConfusion hg
  · by_contra hc
    rw [set_mem_word, if_pos (by omega)] at hs
    exact Except.noConfusion hs
  · have hb : m.mem[m.pc]? = none := List.getElem?_eq_none h
    simp [cycleResult, fetch, hb]

/-- Claim C8 witness: on the zero-size machine every access is out of
bounds; the cycle fails with the fetch bounds error and the machine is
unchanged, and both word accessors report their bounds errors; index 15 is
rejected by a 15-entry register file. -/
theorem oob_access_fails_without_mutation_witness :
    get_mem_word (Machine.new 0) 0 = Except.error "get word: bad addr" ∧
    set_mem_word (Machine.new 0) 0 0 = Except.error "set word: bad addr" ∧
    cycleResult (Machine.new 0) = (Machine.new 0, some "bad addr") ∧
    (List.replicate 15 (0 : Int))[15]? = none :=
  ⟨(oob_access_fails_without_mutation.2.1 (Machine.new 0) 0).1.mpr
     (by decide),
   (oob_access_fails_without_mutation.2.2.1 (Machine.new 0) 0 0).1.mpr
     (by decide),
   (oob_access_fails_without_mutation.2.2.2.1 (Machine.new 0) (by decide)).1,
   oob_access_fails_without_mutation.2.2.2.2 (List.replicate 15 0) 15
     (by decide) (by decide)⟩

/-- A machine poised at `pop %rax` (bytes `b0 0f`) with the stack pointer at
address 16 and the word 42 stored there. -/
def mPop : Machine :=
  { mem := [0xb0, 0x0f] ++ List.replicate 14 0 ++ [42] ++ List.replicate 7 0,
    regs := (List.replicate 15 0).set RSP 16,
    flags := { sf := false, zf := false, of := false },
    status := Status.Aok, cycle := 0, pc := 0 }

/-- Claim C2 (code bug): the word at the stack address is 42, the pop cycle
completes without error and correctly moves the stack pointer from 16 to 24,
but register `rA` ends up holding 16 — `valA`, the old stack pointer read in
decode — instead of the memory-loaded `valM = 42`: the `Pop` arm of
`writeback` assigns `state.val_a`, leaving the value loaded by the memory
stage unused. -/
theorem pop_writeback_stores_old_rsp :
    get_mem_word mPop 16 = Except.ok 42 ∧
    (cycleResult mPop).2 = none ∧
    (cycleResult mPop).1.regs[0]? = some 16 ∧
    (cycleResult mPop).1.regs[RSP]? = some 24 := by
  refine ⟨by decide, by decide, by decide, by decide⟩

/-- A machine poised at `push %rax; pop %rax` (bytes `a0 0f b0 0f`) with
`%rax = 42` and the stack pointer at 32 in a 40-byte memory. -/
def mPushPop : Machine :=
  { mem := [0xa0, 0x0f, 0xb0, 0x0f] ++ List.replicate 36 0,
    regs := ((List.replicate 15 0).set 0 42).set RSP 32,
    flags := { sf := false, zf := false, of := false },
    status := Status.Aok, cycle := 0, pc := 0 }

/-- Claim C3 (code bug): after push(rax);pop(rax) both cycles complete
without error and the stack pointer is restored to 32, but `%rax` holds 24
(the decremented stack pointer) instead of its original value 42, because
pop's writeback stores `valA` rather than `valM`. -/
theorem push_pop_roundtrip_clobbers_register :
    (cycleResult mPushPop).2 = none ∧
    (cycleResult (cycleResult mPushPop).1).2 = none ∧
    (cycleResult (cycleResult mPushPop).1).1.regs[0]? = some 24 ∧
    (cycleResult (cycleResult mPushPop).1).1.regs[RSP]? = some 32 := by
  refine ⟨by decide, by decide, by decide, by decide⟩

/-- Claim C6: a call instruction immediately followed by the matching
return.  Hypotheses: the byte at `pc` decodes as call with target `t`; the
stack-pointer register holds `rsp`, with `rsp` and `rsp - 8` machine-word
representable; the stack slot at `rsp - 8` is writable; the byte at the call
target decodes as return and does not lie in the written stack slot; and the
return address `pc + 9` is representable.  Then both cycles complete without
error, the final pc is the address of the instruction after the call, and
the stack-pointer register is restored to `rsp`. -/
theorem call_ret_roundtrip {m : Machine} {b b2 : Nat} {t rsp : Int}
    {mem1 : List Nat}
    (hlen : m.regs.length = 15)
    (hb : m.mem[m.pc]? = some b) (hcode : b / 16 = 8)
    (ht : get_mem_word m (m.pc + 1) = Except.ok t)
    (hrsp : m.regs[RSP]? = some rsp)
    (hr1 : inRange64 rsp) (hr2 : inRange64 (rsp - 8))
    (hpc : m.pc + 9 < 2 ^ 63)
    (hset : set_mem_word m (toU64 (rsp - 8)) (ofU64 (m.pc + 9)) =
      Except.ok mem1)
    (hretb : m.mem[toU64 t]? = some b2) (hcode2 : b2 / 16 = 9)
    (hnc : toU64 t < toU64 (rsp - 8) ∨ toU64 (rsp - 8) + 8 ≤ toU64 t) :
    (cycleResult m).2 = none ∧
    (cycleResult (cycleResult m).1).2 = none ∧
    (cycleResult (cycleResult m).1).1.pc = m.pc + 9 ∧
    (cycleResult (cycleResult m).1).1.regs[RSP]? = some rsp := by
  have hw2 : wrap64 (rsp - 8) = rsp - 8 := wrap64_eq_self hr2
  have hset' : set_mem_word m (toU64 (wrap64 (rsp - 8))) (ofU64 (m.pc + 9)) =
      Except.ok mem1 := by rw [hw2]; exact hset
  have hc1 := cycle_call hb hcode ht hrsp hlen hset'
  rw [hc1]
  dsimp only
  generalize hm1g : ({ m with mem := mem1,
                              regs := m.regs.set RSP (wrap64 (rsp - 8)),
                              pc := toU64 t } : Machine) = m1
  have hmem1 : m1.mem = mem1 := by rw [← hm1g]
  have hpc1 : m1.pc = toU64 t := by rw [← hm1g]
  have hregs1 : m1.regs = m.regs.set RSP (wrap64 (rsp - 8)) := by
    rw [← hm1g]
  have hlen1 : m1.regs.length = 15 := by
    rw [hregs1, List.length_set, hlen]
  have hb2' : m1.mem[m1.pc]? = some b2 := by
    have hfr := set_frame hset' (toU64 t) (by rw [hw2]; exact hnc)
    rw [hmem1, hpc1, hfr]
    exact hretb
  have hsp1 : m1.regs[RSP]? = some (rsp - 8) := by
    rw [hregs1, List.getElem?_set_eq_of_lt _ (by rw [hlen]; norm_num [RSP]),
      hw2]
  have hget1 : get_mem_word m1 (toU64 (rsp - 8)) =
      Except.ok ((m.pc + 9 : Nat) : Int) := by
    have hg := get_after_set hset' hmem1
    rw [hw2] at hg
    rw [hg, ofU64_of_lt hpc, wrap64_coe_of_lt hpc]
  have hc2 := cycle_ret hb2' hcode2 hsp1 hlen1 hget1
  rw [hc2]
  dsimp only
  refine ⟨rfl, rfl, ?_, ?_⟩
  · exact toU64_coe_of_lt (lt_trans hpc (by norm_num))
  · have hadd : rsp - 8 + 8 = rsp := by ring_nf
    rw [hadd, wrap64_eq_self hr1, hregs1]
    rw [List.getElem?_set_eq_of_lt]
    rw [List.length_set, hlen]
    norm_num [RSP]

/-- A 64-byte machine with `call 32` at pc 0, `ret` at 32, and the stack
pointer at 24. -/
def mC6 : Machine :=
  { mem := [0x80, 32, 0, 0, 0, 0, 0, 0, 0] ++ List.replicate 23 0 ++
      [0x90] ++ List.replicate 31 0,
    regs := (List.replicate 15 0).set RSP 24,
    flags := { sf := false, zf := false, of := false },
    status := Status.Aok, cycle := 0, pc := 0 }

/-- The memory of `mC6` after the call pushes the return address 9 at
address 16. -/
def memC6 : List Nat :=
  mC6.mem.take 16 ++ leBytes (ofU64 (mC6.pc + 9)) ++ mC6.mem.drop 24

/-- Claim C6 witness: on `mC6`, call then ret completes, pc ends at 9 (the
byte after the 9-byte call) and the stack pointer is restored to 24. -/
theorem call_ret_roundtrip_witness :
    (cycleResult mC6).2 = none ∧
    (cycleResult (cycleResult mC6).1).2 = none ∧
    (cycleResult (cycleResult mC6).1).1.pc = mC6.pc + 9 ∧
    (cycleResult (cycleResult mC6).1).1.regs[RSP]? = some 24 :=
  call_ret_roundtrip
    (show mC6.regs.length = 15 by decide)
    (show mC6.mem[mC6.pc]? = some 0x80 by decide)
    (show 0x80 / 16 = 8 by decide)
    (show get_mem_word mC6 (mC6.pc + 1) = Except.ok 32 by decide)
    (show mC6.regs[RSP]? = some 24 by decide)
    (show inRange64 24 by decide)
    (show inRange64 ((24 : Int) - 8) by decide)
    (show mC6.pc + 9 < 2 ^ 63 by decide)
    (show set_mem_word mC6 (toU64 ((24 : Int) - 8)) (ofU64 (mC6.pc + 9)) =
      Except.ok memC6 by decide)
    (show mC6.mem[toU64 (32 : Int)]? = some 0x90 by decide)
    (show (0x90 : Nat) / 16 = 9 by decide)
    (show toU64 (32 : Int) < toU64 ((24 : Int) - 8) ∨
      toU64 ((24 : Int) - 8) + 8 ≤ toU64 (32 : Int) by decide)

end Y86
